import Mathlib

/-!
Verification of the Bitunix → TradeZella exporter
(`bitunix_to_tradezella.py`) against its natural-language specification.

The development shallowly embeds the script's core:

* `sign_request` — the double-SHA-256 request signer (SHA-256 is
  implemented here over byte lists, with 32-bit words as `Nat` values
  reduced mod 2^32);
* `fetchLoop` — the paginated `fetch_trades` loop, with the network
  modelled as an oracle mapping each iteration to a response;
* `load_state` / `save_state` — the checkpoint store, with the two local
  JSON files modelled as optional structures and the standard library's
  ISO-8601 parser (`datetime.fromisoformat` plus the conversion
  `int(dt.timestamp() * 1000)`) passed in as an abstract function;
* `transform_trades` — the CSV row normalizer (dates computed with the
  standard civil-from-days algorithm, matching
  `datetime.fromtimestamp(_, tz=timezone.utc)` on the fields used);
* `mainRun` — the orchestration in `main` from `load_state` to
  `save_state`.

Python's stable `sorted` is embedded as `List.insertionSort` with the
corresponding non-strict total order (stable sorts agree on every input).
-/

set_option maxHeartbeats 1000000

namespace BitunixSync

/-! ### Generic list helpers -/

/-- Concatenation of the images of `f`, i.e. `List.flatMap` written out so
that induction proofs can unfold it directly. -/
def concatMap (f : α → List β) : List α → List β
  | [] => []
  | x :: xs => f x ++ concatMap f xs

/-- Concatenation of a list of strings, modelling `''.join(...)`. -/
def strConcat : List String → String
  | [] => ""
  | s :: rest => s ++ strConcat rest

/-- `p` is an initial segment of `l`. -/
def leadsList (p l : List Nat) : Prop := ∃ t, p ++ t = l

/-! ### Hexadecimal encoding -/

/-- Lower-case hexadecimal digit, as produced by Python's `hexdigest` and
`token_hex`. -/
def hexDigit (n : Nat) : Char :=
  if n < 10 then Char.ofNat (48 + n) else Char.ofNat (87 + n)

/-- Fixed-width big-endian hexadecimal rendering of `n` (width `len`). -/
def natToHex : Nat → Nat → List Char
  | 0, _ => []
  | k + 1, n => natToHex k (n / 16) ++ [hexDigit (n % 16)]

theorem natToHex_length (k n : Nat) : (natToHex k n).length = k := by
  induction k generalizing n with
  | zero => rfl
  | succ k ih => simp [natToHex, ih]

/-! ### UTF-8 encoding

The script hashes `message.encode('utf-8')`.  The encoder below is the
standard UTF-8 scheme written arithmetically (the bit operations
`0xC0 ||| (v >>> 6)` etc. coincide with these additions because the
operand ranges are disjoint). -/

/-- UTF-8 encoding of a single scalar value (Lean `Char`s exclude
surrogates, exactly the values Python will encode). -/
def utf8EncodeChar (c : Char) : List Nat :=
  let v := c.toNat
  if v < 128 then [v]
  else if v < 2048 then [192 + v / 64, 128 + v % 64]
  else if v < 65536 then [224 + v / 4096, 128 + v / 64 % 64, 128 + v % 64]
  else [240 + v / 262144, 128 + v / 4096 % 64, 128 + v / 64 % 64, 128 + v % 64]

/-- UTF-8 encoding of a string, as a list of byte values. -/
def utf8Encode (s : String) : List Nat := concatMap utf8EncodeChar s.data

theorem utf8EncodeChar_ne_nil (c : Char) : utf8EncodeChar c ≠ [] := by
  simp only [utf8EncodeChar]
  split <;> try simp
  split <;> try simp
  split <;> simp

/-! ### Byte-wise lexicographic order

The specification describes query keys as "sorted in ascending byte
order"; `bytesLtB` is the strict lexicographic order on UTF-8 byte
sequences, and is proved below to agree with Lean's (code-point) order
on strings. -/

/-- Strict lexicographic order on byte lists. -/
def bytesLtB : List Nat → List Nat → Bool
  | _, [] => false
  | [], _ :: _ => true
  | a :: as, b :: bs =>
    if a < b then true else if a = b then bytesLtB as bs else false

theorem bytesLtB_irrefl (l : List Nat) : bytesLtB l l = false := by
  induction l with
  | nil => rfl
  | cons a as ih => simp [bytesLtB, ih]

theorem bytesLtB_asymm :
    ∀ {l m : List Nat}, bytesLtB l m = true → bytesLtB m l = true → False
  | [], [], h, _ => by simp [bytesLtB] at h
  | [], _ :: _, _, h' => by simp [bytesLtB] at h'
  | _ :: _, [], h, _ => by simp [bytesLtB] at h
  | a :: as, b :: bs, h, h' => by
    simp only [bytesLtB] at h h'
    by_cases hab : a < b
    · have hba : ¬ b < a := by omega
      simp [hab, hba, show ¬ b = a by omega] at h'
    · by_cases hba : b < a
      · simp [hab, hba, show ¬ a = b by omega] at h
      · have : a = b := by omega
        subst this
        simp [hab] at h h'
        exact bytesLtB_asymm h h'

theorem bytesLtB_append_same (e : List Nat) (u v : List Nat) :
    bytesLtB (e ++ u) (e ++ v) = bytesLtB u v := by
  induction e with
  | nil => rfl
  | cons a as ih => simp [bytesLtB, ih]

theorem bytesLtB_append_of_not_leads :
    ∀ {p q : List Nat}, bytesLtB p q = true → ¬ leadsList p q →
      ∀ (u v : List Nat), bytesLtB (p ++ u) (q ++ v) = true
  | [], q, h, hnl, _, _ => absurd ⟨q, rfl⟩ hnl
  | _ :: _, [], h, _, _, _ => by simp [bytesLtB] at h
  | a :: as, b :: bs, h, hnl, u, v => by
    simp only [bytesLtB, List.cons_append] at h ⊢
    by_cases hab : a < b
    · simp [hab]
    · simp only [if_neg hab] at h ⊢
      by_cases heq : a = b
      · subst heq
        simp only [if_pos rfl] at h ⊢
        refine bytesLtB_append_of_not_leads h ?_ u v
        intro ⟨t, ht⟩
        exact hnl ⟨t, by simp [ht]⟩
      · simp [heq] at h

theorem char_toNat_lt_of_lt {c d : Char} (h : c < d) : c.toNat < d.toNat :=
  Char.lt_iff_val_lt_val.mp h

theorem char_toNat_limit (c : Char) : c.toNat < 1114112 := by
  rcases c.valid with h | ⟨_, h2⟩
  · have : c.toNat < 55296 := h
    omega
  · exact h2

theorem char_eq_of_toNat_eq {c d : Char} (h : c.toNat = d.toNat) : c = d :=
  Char.ext (UInt32.ext h)

theorem utf8EncodeChar_lt {c d : Char} (h : c < d) :
    bytesLtB (utf8EncodeChar c) (utf8EncodeChar d) = true := by
  have hv := char_toNat_lt_of_lt h
  have hd := char_toNat_limit d
  simp only [utf8EncodeChar]
  split_ifs <;> (simp only [bytesLtB]; split_ifs <;> first | rfl | (exfalso; omega))

theorem utf8EncodeChar_not_leads {c d : Char} (hne : c ≠ d) :
    ¬ leadsList (utf8EncodeChar c) (utf8EncodeChar d) := by
  rintro ⟨t, ht⟩
  have hvc := char_toNat_limit c
  have hvd := char_toNat_limit d
  have hcd : c.toNat ≠ d.toNat := fun hh => hne (char_eq_of_toNat_eq hh)
  simp only [utf8EncodeChar] at ht
  split_ifs at ht <;>
    simp only [List.cons_append, List.nil_append, List.cons.injEq,
      reduceCtorEq, List.cons_ne_nil, and_false, false_and] at ht <;>
    omega

theorem lex_to_bytesLtB :
    ∀ {xs ys : List Char}, List.Lex (· < ·) xs ys →
      bytesLtB (concatMap utf8EncodeChar xs) (concatMap utf8EncodeChar ys) = true := by
  intro xs ys h
  induction h with
  | nil =>
    rename_i b bs
    simp only [concatMap]
    rcases he : utf8EncodeChar b with _ | ⟨x, rest⟩
    · exact absurd he (utf8EncodeChar_ne_nil b)
    · simp [bytesLtB]
  | cons h ih =>
    simp only [concatMap]
    rw [bytesLtB_append_same]
    exact ih
  | rel hab =>
    simp only [concatMap]
    exact bytesLtB_append_of_not_leads (utf8EncodeChar_lt hab)
      (utf8EncodeChar_not_leads (ne_of_lt hab)) _ _

theorem bytesLtB_utf8_iff_lt (x y : String) :
    bytesLtB (utf8Encode x) (utf8Encode y) = true ↔ x < y := by
  constructor
  · intro h
    rcases lt_trichotomy x y with hlt | heq | hgt
    · exact hlt
    · subst heq
      rw [bytesLtB_irrefl] at h
      cases h
    · exact absurd (lex_to_bytesLtB (String.lt_iff_toList_lt.mp hgt))
        (fun h2 => (bytesLtB_asymm h h2).elim)
  · intro h
    exact lex_to_bytesLtB (String.lt_iff_toList_lt.mp h)

/-! ### SHA-256

The script calls `hashlib.sha256(...).hexdigest()`.  The implementation
below is the FIPS 180-4 algorithm over byte lists, with 32-bit words
carried as `Nat` values reduced modulo `2^32`; rotations and shifts are
written arithmetically. -/

/-- Reduction to a 32-bit word. -/
def w32 (n : Nat) : Nat := n % 4294967296

/-- Right rotation of a 32-bit word by `n` places. -/
def rotr (n x : Nat) : Nat := w32 (x / 2 ^ n + x % 2 ^ n * 2 ^ (32 - n))

def bigS0 (x : Nat) : Nat := rotr 2 x ^^^ rotr 13 x ^^^ rotr 22 x

def bigS1 (x : Nat) : Nat := rotr 6 x ^^^ rotr 11 x ^^^ rotr 25 x

def smallS0 (x : Nat) : Nat := rotr 7 x ^^^ rotr 18 x ^^^ x / 8

def smallS1 (x : Nat) : Nat := rotr 17 x ^^^ rotr 19 x ^^^ x / 1024

def chFn (x y z : Nat) : Nat := (x &&& y) ^^^ ((4294967295 - x) &&& z)

def majFn (x y z : Nat) : Nat := (x &&& y) ^^^ (x &&& z) ^^^ (y &&& z)

/-- The 64 round constants of FIPS 180-4 (written in decimal). -/
def sha256K : List Nat :=
  [1116352408, 1899447441, 3049323471, 3921009573, 961987163, 1508970993,
   2453635748, 2870763221, 3624381080, 310598401, 607225278, 1426881987,
   1925078388, 2162078206, 2614888103, 3248222580, 3835390401, 4022224774,
   264347078, 604807628, 770255983, 1249150122, 1555081692, 1996064986,
   2554220882, 2821834349, 2952996808, 3210313671, 3336571891, 3584528711,
   113926993, 338241895, 666307205, 773529912, 1294757372, 1396182291,
   1695183700, 1986661051, 2177026350, 2456956037, 2730485921, 2820302411,
   3259730800, 3345764771, 3516065817, 3600352804, 4094571909, 275423344,
   430227734, 506948616, 659060556, 883997877, 958139571, 1322822218,
   1537002063, 1747873779, 1955562222, 2024104815, 2227730452, 2361852424,
   2428436474, 2756734187, 3204031479, 3329325298]

/-- The eight initial hash values of FIPS 180-4 (written in decimal). -/
def sha256H0 : List Nat :=
  [1779033703, 3144134277, 1013904242, 2773480762,
   1359893119, 2600822924, 528734635, 1541459225]

/-- Big-endian bytes of `n`, fixed width. -/
def beBytes : Nat → Nat → List Nat
  | 0, _ => []
  | k + 1, n => beBytes k (n / 256) ++ [n % 256]

/-- FIPS 180-4 padding: append `0x80`, zeros up to 56 mod 64, then the
bit length as eight big-endian bytes. -/
def padMessage (msg : List Nat) : List Nat :=
  msg ++ [128] ++ List.replicate ((119 - msg.length % 64) % 64) 0
    ++ beBytes 8 (msg.length * 8)

/-- Big-endian 32-bit words of a byte list (length a multiple of four). -/
def toWords : List Nat → List Nat
  | b0 :: b1 :: b2 :: b3 :: rest =>
    (b0 * 16777216 + b1 * 65536 + b2 * 256 + b3) :: toWords rest
  | _ => []

/-- Extend the 16-word message schedule by `k` further words. -/
def scheduleExtend : List Nat → Nat → List Nat
  | ws, 0 => ws
  | ws, k + 1 =>
    let n := ws.length
    scheduleExtend
      (ws ++ [w32 (smallS1 (ws.getD (n - 2) 0) + ws.getD (n - 7) 0 +
        smallS0 (ws.getD (n - 15) 0) + ws.getD (n - 16) 0)]) k

/-- The eight working variables of the compression function. -/
structure SHAState where
  sa : Nat
  sb : Nat
  sc : Nat
  sd : Nat
  se : Nat
  sf : Nat
  sg : Nat
  sh : Nat

/-- One round of the compression function; `wk` is the pair of the
schedule word and the round constant. -/
def shaStep (st : SHAState) (wk : Nat × Nat) : SHAState :=
  let t1 := w32 (st.sh + bigS1 st.se + chFn st.se st.sf st.sg + wk.1 + wk.2)
  let t2 := w32 (bigS0 st.sa + majFn st.sa st.sb st.sc)
  { sa := w32 (t1 + t2), sb := st.sa, sc := st.sb, sd := st.sc,
    se := w32 (st.sd + t1), sf := st.se, sg := st.sf, sh := st.sg }

/-- Compress one 64-byte block into the running hash value. -/
def sha256Compress (hs : List Nat) (block : List Nat) : List Nat :=
  let ws := scheduleExtend (toWords block) 48
  let st0 : SHAState :=
    { sa := hs.getD 0 0, sb := hs.getD 1 0, sc := hs.getD 2 0, sd := hs.getD 3 0,
      se := hs.getD 4 0, sf := hs.getD 5 0, sg := hs.getD 6 0, sh := hs.getD 7 0 }
  let fin := (ws.zip sha256K).foldl shaStep st0
  [w32 (hs.getD 0 0 + fin.sa), w32 (hs.getD 1 0 + fin.sb),
   w32 (hs.getD 2 0 + fin.sc), w32 (hs.getD 3 0 + fin.sd),
   w32 (hs.getD 4 0 + fin.se), w32 (hs.getD 5 0 + fin.sf),
   w32 (hs.getD 6 0 + fin.sg), w32 (hs.getD 7 0 + fin.sh)]

/-- Fold the compression function over the blocks of a padded message;
the padded length is a multiple of 64, so the block count is exact. -/
def sha256Blocks (hs : List Nat) (msg : List Nat) : Nat → List Nat
  | 0 => hs
  | k + 1 => sha256Blocks (sha256Compress hs (msg.take 64)) (msg.drop 64) k

/-- SHA-256 digest of a byte list, as eight 32-bit words. -/
def sha256Digest (msg : List Nat) : List Nat :=
  let padded := padMessage msg
  sha256Blocks sha256H0 padded (padded.length / 64)

/-- Hex digest of a byte list, as produced by `hashlib.sha256(_).hexdigest()`. -/
def sha256Hex (msg : List Nat) : String :=
  String.mk (concatMap (natToHex 8) (sha256Digest msg))

/-! ### JSON values and compact serialization

`sign_request` canonicalizes an optional body with
`json.dumps(json.loads(body), separators=(',', ':'))`.  A body string
that is valid JSON is represented here by its parsed value (numbers
restricted to integers); `Json.dumps` is the compact serializer with
Python's default `ensure_ascii=True` escaping. -/

inductive Json where
  | null : Json
  | bool (b : Bool) : Json
  | num (n : Int) : Json
  | str (s : String) : Json
  | arr (xs : List Json) : Json
  | obj (kvs : List (String × Json)) : Json

/-- Python's `json.dumps` escaping of one character (`ensure_ascii=True`:
everything outside printable ASCII becomes a `\uXXXX` escape, with
surrogate pairs above the basic multilingual plane). -/
def jsonEscapeChar (c : Char) : List Char :=
  let v := c.toNat
  if v = 34 then ['\\', '"']
  else if v = 92 then ['\\', '\\']
  else if v = 8 then ['\\', 'b']
  else if v = 12 then ['\\', 'f']
  else if v = 10 then ['\\', 'n']
  else if v = 13 then ['\\', 'r']
  else if v = 9 then ['\\', 't']
  else if 32 ≤ v ∧ v ≤ 126 then [c]
  else if v < 65536 then '\\' :: 'u' :: natToHex 4 v
  else
    '\\' :: 'u' :: natToHex 4 (55296 + (v - 65536) / 1024) ++
      ('\\' :: 'u' :: natToHex 4 (56320 + (v - 65536) % 1024))

/-- A JSON string literal, quoted and escaped. -/
def jsonQuote (s : String) : String :=
  "\"" ++ String.mk (concatMap jsonEscapeChar s.data) ++ "\""

mutual

/-- Compact serialization, matching
`json.dumps(_, separators=(',', ':'))`. -/
def Json.dumps : Json → String
  | .null => "null"
  | .bool true => "true"
  | .bool false => "false"
  | .num n => toString n
  | .str s => jsonQuote s
  | .arr xs => "[" ++ Json.dumpsArr xs ++ "]"
  | .obj kvs => "\x7b" ++ Json.dumpsObj kvs ++ "\x7d"

/-- Array elements joined by `,`. -/
def Json.dumpsArr : List Json → String
  | [] => ""
  | [x] => Json.dumps x
  | x :: y :: rest => Json.dumps x ++ "," ++ Json.dumpsArr (y :: rest)

/-- Object entries `"key":value` in insertion order, joined by `,`. -/
def Json.dumpsObj : List (String × Json) → String
  | [] => ""
  | [(k, v)] => jsonQuote k ++ ":" ++ Json.dumps v
  | (k, v) :: e :: rest =>
    jsonQuote k ++ ":" ++ Json.dumps v ++ "," ++ Json.dumpsObj (e :: rest)

end

/-! ### The request signer

Embedding of `BitunixClient.sign_request` (lines 90-107 of the script).
Python's `sorted(query_params.items())` is a stable sort by the
tuple order on `(key, value)` pairs; `List.insertionSort` with the
non-strict tuple order `pairLe` is that same stable sort. -/

/-- Non-strict lexicographic order on `(key, value)` pairs, the order of
Python's `sorted` on `dict.items()`. -/
def pairLe (a b : String × String) : Prop :=
  a.1 < b.1 ∨ (a.1 = b.1 ∧ a.2 ≤ b.2)

instance (a b : String × String) : Decidable (pairLe a b) := by
  unfold pairLe
  infer_instance

/-- Signature generation for BitUnix API requests, from the script:
sort query parameters, concatenate `key` then `value` with no
separators, compact-serialize the body, hash
`nonce + timestamp + api_key + query_string + body`, then hash the hex
digest followed by the secret.  (The script's `if query_params else ""`
guard is a no-op: joining an empty sequence already yields `""`.) -/
def sign_request (api_key api_secret : String) (nonce timestamp : String)
    (query_params : List (String × String)) (body : Option Json) : String :=
  let query_string :=
    strConcat ((List.insertionSort pairLe query_params).map fun kv => kv.1 ++ kv.2)
  let body_str :=
    match body with
    | some j => Json.dumps j
    | none => ""
  let message := nonce ++ timestamp ++ api_key ++ query_string ++ body_str
  let digest := sha256Hex (utf8Encode message)
  sha256Hex (utf8Encode (digest ++ api_secret))

/-- Non-strict key order by ascending UTF-8 byte order, as the
specification words it ("sorting keys in ascending byte order"). -/
def byteKeyLe (a b : String × String) : Prop :=
  bytesLtB (utf8Encode b.1) (utf8Encode a.1) = false

instance (a b : String × String) : Decidable (byteKeyLe a b) := by
  unfold byteKeyLe
  infer_instance

/-- The signature algorithm exactly as the specification describes it:
query parameters sorted by key in ascending byte order and concatenated
as key-then-value pairs, body re-serialized as compact JSON, first
SHA-256 of `nonce + timestamp + key_id + query + body`, hex digest
concatenated with the secret key, second SHA-256, hex-encoded. -/
def signSpec (api_key api_secret : String) (nonce timestamp : String)
    (query_params : List (String × String)) (body : Option Json) : String :=
  let canonical_query :=
    strConcat ((List.insertionSort byteKeyLe query_params).map fun kv => kv.1 ++ kv.2)
  let canonical_body :=
    match body with
    | some j => Json.dumps j
    | none => ""
  let first_digest :=
    sha256Hex (utf8Encode (nonce ++ timestamp ++ api_key ++ canonical_query ++ canonical_body))
  sha256Hex (utf8Encode (first_digest ++ api_secret))

theorem byteKeyLe_iff (a b : String × String) : byteKeyLe a b ↔ a.1 ≤ b.1 := by
  unfold byteKeyLe
  rw [← Bool.not_eq_true, bytesLtB_utf8_iff_lt]
  exact not_lt

instance : IsTrans (String × String) pairLe := by
  constructor
  rintro a b c (h1 | ⟨h1, h1'⟩) (h2 | ⟨h2, h2'⟩)
  · exact Or.inl (h1.trans h2)
  · exact Or.inl (h2 ▸ h1)
  · exact Or.inl (h1 ▸ h2)
  · exact Or.inr ⟨h1.trans h2, h1'.trans h2'⟩

instance : IsTotal (String × String) pairLe := by
  constructor
  intro a b
  rcases lt_trichotomy a.1 b.1 with h | h | h
  · exact Or.inl (Or.inl h)
  · rcases le_total a.2 b.2 with h2 | h2
    · exact Or.inl (Or.inr ⟨h, h2⟩)
    · exact Or.inr (Or.inr ⟨h.symm, h2⟩)
  · exact Or.inr (Or.inl h)

instance : IsAntisymm (String × String) pairLe := by
  constructor
  rintro ⟨a1, a2⟩ ⟨b1, b2⟩ (h1 | ⟨h1, h1'⟩) (h2 | ⟨h2, h2'⟩)
  · exact absurd (h1.trans h2) (lt_irrefl _)
  · exact absurd h1 (h2 ▸ lt_irrefl _)
  · exact absurd h2 (h1 ▸ lt_irrefl _)
  · simp only [Prod.mk.injEq]
    exact ⟨h1, le_antisymm h1' h2'⟩

instance : IsTrans (String × String) byteKeyLe := by
  constructor
  intro a b c h1 h2
  rw [byteKeyLe_iff] at h1 h2 ⊢
  exact h1.trans h2

instance : IsTotal (String × String) byteKeyLe := by
  constructor
  intro a b
  rw [byteKeyLe_iff, byteKeyLe_iff]
  exact le_total a.1 b.1

/-- With distinct keys, sorting by key in byte order and sorting by the
full `(key, value)` tuple order produce the same list: both results are
permutations of the input that are sorted for the antisymmetric order
`pairLe`. -/
theorem insertionSort_byteKey_eq_pair (l : List (String × String))
    (h : (l.map Prod.fst).Nodup) :
    List.insertionSort byteKeyLe l = List.insertionSort pairLe l := by
  apply List.eq_of_perm_of_sorted (r := pairLe)
    ((List.perm_insertionSort byteKeyLe l).trans (List.perm_insertionSort pairLe l).symm)
  · have hs : (List.insertionSort byteKeyLe l).Sorted byteKeyLe :=
      List.sorted_insertionSort byteKeyLe l
    have hnd : ((List.insertionSort byteKeyLe l).map Prod.fst).Nodup :=
      (((List.perm_insertionSort byteKeyLe l).map Prod.fst).nodup_iff).mpr h
    have hne : (List.insertionSort byteKeyLe l).Pairwise (fun a b => a.1 ≠ b.1) :=
      List.pairwise_map.mp hnd
    refine (hs.and hne).imp ?_
    rintro a b ⟨hab, hne'⟩
    exact Or.inl (lt_of_le_of_ne ((byteKeyLe_iff _ _).mp hab) hne')
  · exact List.sorted_insertionSort pairLe l

/-! ### Trades and the paginated fetch loop

Embedding of `BitunixClient.fetch_trades` (lines 109-159).  A raw trade
record carries the fields the script reads; a `none` field models a key
missing from the JSON object.  The network is an oracle mapping each
loop iteration to the response the `GET` receives. -/

structure Trade where
  ctime : Option Int
  symbol : Option String
  side : Option String
  qty : Option String
  price : Option String
  fee : Option String
deriving DecidableEq

/-- The creation timestamp as the script reads it:
`int(tr.get('ctime', 0))`. -/
def getCtime (tr : Trade) : Int := tr.ctime.getD 0

/-- Outcome of one `GET`: `transportError` models `raise_for_status`
raising `HTTPError`; `malformed` models `resp.json()` raising
`ValueError`; `payload hasError tradeList` models a parsed body, with
`hasError` for `'error' in response_json` and `tradeList` for
`response_json.get('data', {}).get('tradeList', [])`. -/
inductive Response where
  | transportError : Response
  | malformed : Response
  | payload (hasError : Bool) (tradeList : List Trade) : Response
deriving DecidableEq

/-- Hex string of `n` random bytes, modelling `secrets.token_hex(n)`;
`bytes` supplies the random byte stream. -/
def tokenHex (n : Nat) (bytes : Nat → Nat) : String :=
  String.mk (concatMap (fun i => natToHex 2 (bytes i % 256)) (List.range n))

/-- One authenticated request as issued by the loop: query parameters
and the `nonce`, `timestamp` and `sign` headers. -/
structure Request where
  startTime : Int
  skip : Nat
  limit : Nat
  nonce : String
  timestamp : String
  sign : String
deriving DecidableEq

/-- The fixed page size of the loop (`limit = 100`). -/
def pageLimit : Nat := 100

/-- The body of the `while True` loop of `fetch_trades`.  `fuel` bounds
the number of iterations (the returned value is `none` only when the
bound is hit before the loop breaks); `iter` counts iterations so the
oracle, the nonce bytes and the clock line up per request; `trades`
and `reqs` accumulate kept records and issued requests. -/
def fetchLoop (oracle : Nat → Response) (randoms : Nat → Nat → Nat)
    (times : Nat → String) (api_key api_secret : String) (start_time : Int) :
    Nat → Nat → Nat → List Trade → List Request → Option (List Trade × List Request)
  | 0, _, _, _, _ => none
  | fuel + 1, iter, skip, trades, reqs =>
    let now_ms := times iter
    let nonce := tokenHex 8 (randoms iter)
    let params : List (String × String) :=
      [("startTime", toString start_time), ("skip", toString skip),
       ("limit", toString pageLimit)]
    let signature := sign_request api_key api_secret nonce now_ms params none
    let reqs' := reqs ++ [⟨start_time, skip, pageLimit, nonce, now_ms, signature⟩]
    match oracle iter with
    | .transportError => some (trades, reqs')
    | .malformed => some (trades, reqs')
    | .payload true _ => some (trades, reqs')
    | .payload false page =>
      if page.isEmpty then some (trades, reqs')
      else
        let trades' := trades ++ page.filter fun tr => decide (start_time < getCtime tr)
        if page.length < pageLimit then some (trades', reqs')
        else
          fetchLoop oracle randoms times api_key api_secret start_time
            fuel (iter + 1) (skip + page.length) trades' reqs'

/-- `fetch_trades(start_time)`: run the loop from an empty state.  The
first component of the result is the returned trade list; the second
lists the requests issued. -/
def fetch_trades (oracle : Nat → Response) (randoms : Nat → Nat → Nat)
    (times : Nat → String) (api_key api_secret : String) (start_time : Int)
    (fuel : Nat) : Option (List Trade × List Request) :=
  fetchLoop oracle randoms times api_key api_secret start_time fuel 0 0 [] []

/-- Responses on which the loop breaks: transport failure, malformed
body, remote-reported error, empty page, short page. -/
def isTerminal : Response → Bool
  | .transportError => true
  | .malformed => true
  | .payload true _ => true
  | .payload false page => page.isEmpty || decide (page.length < pageLimit)

/-- The records a response contributes to the accumulated trades: the
filtered page for a parsed error-free payload, nothing otherwise. -/
def pageFilter (start_time : Int) : Response → List Trade
  | .payload false page => page.filter fun tr => decide (start_time < getCtime tr)
  | _ => []

/-! ### Checkpoint store

Embedding of `load_state` (lines 162-187) and `save_state`
(lines 190-193).  The two local JSON files are optional structures
(`none` = file absent; a `none` field = key absent).  The ISO-8601
conversion `int(datetime.fromisoformat(_).timestamp() * 1000)` is an
external library call, passed in as `fromiso` (`none` = `ValueError`);
the `replace('Z', '+00:00')` preprocessing is kept concrete. -/

structure StateData where
  last_time : Option Int
deriving DecidableEq

structure ConfigData where
  api_key : Option String
  secret_key : Option String
  start_time : Option String
deriving DecidableEq

/-- Load the last exported timestamp.  `Except.error` models the
re-raised `ValueError` for an invalid configured `start_time`; note the
script treats a falsy `start_time` (absent, `None`, or `""`) as absent
and falls through to `return 0`. -/
def load_state (fromiso : String → Option Int) (stateFile : Option StateData)
    (config : Option ConfigData) : Except String Int :=
  match stateFile with
  | some data => .ok (data.last_time.getD 0)
  | none =>
    match config with
    | some cfg =>
      match cfg.start_time with
      | some s =>
        if s = "" then .ok 0
        else
          match fromiso (s.replace "Z" "+00:00") with
          | some ms => .ok ms
          | none => .error "Invalid start_time format in config"
      | none => .ok 0
    | none => .ok 0

/-- Save the most recent export timestamp: the state file afterwards
holds exactly `{'last_time': last_time}`. -/
def save_state (last_time : Int) : StateData := ⟨some last_time⟩

/-! ### The normalizer

Embedding of `transform_trades` (lines 196-222).  Dates and times come
from `datetime.fromtimestamp(ctime / 1000, tz=timezone.utc)`: the
floored second count decomposes into a civil day (converted with the
standard days-to-civil-calendar algorithm) and a second of day. -/

/-- Gregorian calendar date of a day count relative to 1970-01-01
(Howard Hinnant's `civil_from_days`): `(year, month, day)`. -/
def civilFromDays (z : Int) : Int × Nat × Nat :=
  let z' := z + 719468
  let era := Int.fdiv z' 146097
  let doe := (z' - era * 146097).toNat
  let yoe := (doe - doe / 1460 + doe / 36524 - doe / 146096) / 365
  let y : Int := (yoe : Int) + era * 400
  let doy := doe - (365 * yoe + yoe / 4 - yoe / 100)
  let mp := (5 * doy + 2) / 153
  let d := doy - (153 * mp + 2) / 5 + 1
  let m := if mp < 10 then mp + 3 else mp - 9
  (if m ≤ 2 then y + 1 else y, m, d)

/-- Two-digit zero-padded rendering, as in `strftime("%H:%M:%S")`. -/
def pad2 (n : Nat) : String :=
  if n < 10 then "0" ++ toString n else toString n

/-- Per-character uppercasing, modelling `str.upper()` on the ASCII
`side` values the exchange serves. -/
def strUpper (s : String) : String := String.mk (s.data.map Char.toUpper)

/-- One output row of TradeZella's Generic CSV. -/
structure Row where
  date : String
  time : String
  symbol : String
  buySell : String
  quantity : String
  price : String
  spread : String
  expiration : String
  strike : String
  callPut : String
  commission : String
  fees : String
deriving DecidableEq

/-- The row built from one raw trade record (loop body of
`transform_trades`): `Date` is `f"{dt.month}/{dt.day}/{dt.year % 100}"`,
`Time` is `dt.strftime("%H:%M:%S")`, text fields fall back to `''` via
`tr.get(...)`, `Buy/Sell` is upper-cased, `Spread` is the constant
`'Crypto'`, and `Expiration`, `Strike`, `Call/Put`, `Fees` are blank. -/
def tradeRow (tr : Trade) : Row :=
  let ctime := getCtime tr
  let secs := Int.fdiv ctime 1000
  let days := Int.fdiv secs 86400
  let sod := (secs - days * 86400).toNat
  let ymd := civilFromDays days
  { date := toString ymd.2.1 ++ "/" ++ toString ymd.2.2 ++ "/" ++
      toString (Int.emod ymd.1 100),
    time := pad2 (sod / 3600) ++ ":" ++ pad2 (sod % 3600 / 60) ++ ":" ++
      pad2 (sod % 60),
    symbol := tr.symbol.getD "",
    buySell := strUpper (tr.side.getD ""),
    quantity := tr.qty.getD "",
    price := tr.price.getD "",
    spread := "Crypto",
    expiration := "",
    strike := "",
    callPut := "",
    commission := tr.fee.getD "",
    fees := "" }

/-- Sort order of `sorted(trades, key=lambda x: int(x.get('ctime', 0)))`:
the non-strict order on creation timestamps (Python's stable sort by a
key is `List.insertionSort` of this order). -/
def tradeLe (a b : Trade) : Prop := getCtime a ≤ getCtime b

instance (a b : Trade) : Decidable (tradeLe a b) := by
  unfold tradeLe
  infer_instance

instance : IsTrans Trade tradeLe := ⟨fun _ _ _ h1 h2 => h1.trans h2⟩

instance : IsTotal Trade tradeLe := ⟨fun a b => le_total (getCtime a) (getCtime b)⟩

/-- Convert raw trade records to TradeZella rows, oldest first. -/
def transform_trades (trades : List Trade) : List Row :=
  (List.insertionSort tradeLe trades).map tradeRow

/-! ### The orchestrator

Embedding of `main` (lines 239-257), from `load_state` to `save_state`.
The CSV writer is external; the rows it receives are surfaced in the
`exported` outcome.  `errorCaught` models `main`'s blanket
`except Exception` handler.  (In the script the CSV file is written
before `max(int(t['ctime']) ...)` is evaluated, so on the
`errorCaught`-after-transform path a file may exist; no claim below
concerns that file, and the state file is untouched on that path.) -/

/-- The checkpoint value computed by `main`:
`max(int(t['ctime']) for t in new_trades)`.  `none` models the
exceptions (`ValueError` on an empty sequence, `KeyError` for a record
with no `'ctime'` key); both are caught by `main`'s handler. -/
def maxCtimeStrict : List Trade → Option Int
  | [] => none
  | [tr] => tr.ctime
  | tr :: rest =>
    match tr.ctime, maxCtimeStrict rest with
    | some c, some m => some (max c m)
    | _, _ => none

/-- How a run ends: an exception was caught and logged; no new trades
(early return); or rows exported and the checkpoint saved. -/
inductive RunOutcome where
  | errorCaught : RunOutcome
  | noNew : RunOutcome
  | exported (rows : List Row) (latest : Int) : RunOutcome
deriving DecidableEq

/-- A finished run: its outcome and the state file it leaves behind. -/
structure RunResult where
  outcome : RunOutcome
  stateFileAfter : Option StateData
deriving DecidableEq

/-- One run of `main` (credentials already loaded): load the
checkpoint, fetch, return early if nothing is new, transform, compute
the newest timestamp, save it.  `none` only when the fetch loop's fuel
runs out. -/
def mainRun (fromiso : String → Option Int) (stateFile : Option StateData)
    (config : Option ConfigData) (oracle : Nat → Response)
    (randoms : Nat → Nat → Nat) (times : Nat → String)
    (api_key api_secret : String) (fuel : Nat) : Option RunResult :=
  match load_state fromiso stateFile config with
  | .error _ => some ⟨.errorCaught, stateFile⟩
  | .ok last_time =>
    match fetch_trades oracle randoms times api_key api_secret last_time fuel with
    | none => none
    | some (new_trades, _) =>
      if new_trades.isEmpty then some ⟨.noNew, stateFile⟩
      else
        let rows := transform_trades new_trades
        match maxCtimeStrict new_trades with
        | none => some ⟨.errorCaught, stateFile⟩
        | some latest => some ⟨.exported rows latest, some (save_state latest)⟩

/-! ### Shared lemmas about the embedding -/

theorem concatMap_length_two (bytes : Nat → Nat) :
    ∀ l : List Nat, (concatMap (fun i => natToHex 2 (bytes i % 256)) l).length = 2 * l.length
  | [] => rfl
  | x :: xs => by
    simp [concatMap, natToHex_length, concatMap_length_two bytes xs]
    omega

/-- Every nonce the loop generates has exactly sixteen hex characters:
`secrets.token_hex(8)` is eight random bytes. -/
theorem tokenHex_eight_length (bytes : Nat → Nat) : (tokenHex 8 bytes).length = 16 := by
  show (String.mk _).length = 16
  simp only [String.length, concatMap_length_two, List.length_range]

/-- Invariant of `fetchLoop`: every accumulated trade has creation
timestamp strictly above `start_time` (the defensive `ctime > start_time`
filter). -/
theorem fetchLoop_trades_gt (oracle : Nat → Response) (randoms : Nat → Nat → Nat)
    (times : Nat → String) (api_key api_secret : String) (t : Int) :
    ∀ (fuel iter skip : Nat) (acc : List Trade) (reqs : List Request)
      (ts : List Trade) (rs : List Request),
      (∀ tr ∈ acc, t < getCtime tr) →
      fetchLoop oracle randoms times api_key api_secret t fuel iter skip acc reqs =
        some (ts, rs) →
      ∀ tr ∈ ts, t < getCtime tr := by
  intro fuel
  induction fuel with
  | zero => intro iter skip acc reqs ts rs _ h; cases h
  | succ fuel ih =>
    intro iter skip acc reqs ts rs hacc h
    rcases ho : oracle iter with _ | _ | ⟨he, page⟩ <;>
      simp only [fetchLoop, ho] at h
    · cases h with | refl => exact hacc
    · cases h with | refl => exact hacc
    · cases he with
      | true => simp only at h; cases h with | refl => exact hacc
      | false =>
        simp only at h
        by_cases hemp : page.isEmpty
        · rw [if_pos hemp] at h
          cases h with | refl => exact hacc
        · rw [if_neg hemp] at h
          have hacc' : ∀ tr ∈ acc ++ page.filter fun tr => decide (t < getCtime tr),
              t < getCtime tr := by
            intro tr htr
            rcases List.mem_append.mp htr with hmem | hmem
            · exact hacc tr hmem
            · exact of_decide_eq_true (List.mem_filter.mp hmem).2
          by_cases hlen : page.length < pageLimit
          · rw [if_pos hlen] at h
            cases h with | refl => exact hacc'
          · rw [if_neg hlen] at h
            exact ih _ _ _ _ _ _ hacc' h

/-- Invariant of `fetchLoop`: every issued request carries a
sixteen-hex-character nonce. -/
theorem fetchLoop_nonce_length (oracle : Nat → Response) (randoms : Nat → Nat → Nat)
    (times : Nat → String) (api_key api_secret : String) (t : Int) :
    ∀ (fuel iter skip : Nat) (acc : List Trade) (reqs : List Request)
      (ts : List Trade) (rs : List Request),
      (∀ r ∈ reqs, r.nonce.length = 16) →
      fetchLoop oracle randoms times api_key api_secret t fuel iter skip acc reqs =
        some (ts, rs) →
      ∀ r ∈ rs, r.nonce.length = 16 := by
  intro fuel
  induction fuel with
  | zero => intro iter skip acc reqs ts rs _ h; cases h
  | succ fuel ih =>
    intro iter skip acc reqs ts rs hreq h
    have hreq' : ∀ r ∈ reqs ++
        [(⟨t, skip, pageLimit, tokenHex 8 (randoms iter), times iter,
          sign_request api_key api_secret (tokenHex 8 (randoms iter)) (times iter)
            [("startTime", toString t), ("skip", toString skip),
             ("limit", toString pageLimit)] none⟩ : Request)],
        r.nonce.length = 16 := by
      intro r hr
      rcases List.mem_append.mp hr with hmem | hmem
      · exact hreq r hmem
      · rcases List.mem_singleton.mp hmem with rfl
        exact tokenHex_eight_length (randoms iter)
    rcases ho : oracle iter with _ | _ | ⟨he, page⟩ <;>
      simp only [fetchLoop, ho] at h
    · cases h with | refl => exact hreq'
    · cases h with | refl => exact hreq'
    · cases he with
      | true => simp only at h; cases h with | refl => exact hreq'
      | false =>
        simp only at h
        by_cases hemp : page.isEmpty
        · rw [if_pos hemp] at h
          cases h with | refl => exact hreq'
        · rw [if_neg hemp] at h
          by_cases hlen : page.length < pageLimit
          · rw [if_pos hlen] at h
            cases h with | refl => exact hreq'
          · rw [if_neg hlen] at h
            exact ih _ _ _ _ _ _ hreq' h

theorem concatMap_map (f : β → List γ) (g : α → β) :
    ∀ l : List α, concatMap f (l.map g) = concatMap (fun x => f (g x)) l
  | [] => rfl
  | x :: xs => by simp only [List.map_cons, concatMap, concatMap_map f g xs]

theorem concatMap_congr {f g : α → List β} :
    ∀ {l : List α}, (∀ x ∈ l, f x = g x) → concatMap f l = concatMap g l
  | [], _ => rfl
  | x :: xs, h => by
    simp only [concatMap, h x (List.mem_cons_self x xs)]
    rw [concatMap_congr fun y hy => h y (List.mem_cons_of_mem x hy)]

/-- If the oracle serves full error-free pages up to iteration
`iter + i` and a break-triggering response there, the loop halts and
returns exactly the accumulated filtered pages. -/
theorem fetchLoop_terminal (oracle : Nat → Response) (randoms : Nat → Nat → Nat)
    (times : Nat → String) (api_key api_secret : String) (t : Int) :
    ∀ (i fuel iter skip : Nat) (acc : List Trade) (reqs : List Request),
      (∀ j, j < i → isTerminal (oracle (iter + j)) = false) →
      isTerminal (oracle (iter + i)) = true →
      i < fuel →
      (fetchLoop oracle randoms times api_key api_secret t fuel iter skip acc reqs).map
          Prod.fst =
        some (acc ++ concatMap (fun j => pageFilter t (oracle (iter + j)))
          (List.range (i + 1))) := by
  intro i
  induction i with
  | zero =>
    intro fuel iter skip acc reqs _ hterm hfuel
    rw [Nat.add_zero] at hterm
    cases fuel with
    | zero => omega
    | succ f =>
      have hr1 : List.range 1 = [0] := rfl
      rcases ho : oracle iter with _ | _ | ⟨he, page⟩ <;>
        rw [ho] at hterm <;>
        simp only [fetchLoop, ho, hr1, concatMap, Nat.add_zero, ho,
          pageFilter, List.append_nil]
      · simp
      · simp
      · cases he with
        | true => simp
        | false =>
          simp only [isTerminal] at hterm
          by_cases hemp : page.isEmpty
          · have : page = [] := List.isEmpty_iff.mp hemp
            subst this
            simp
          · rw [Bool.or_eq_true] at hterm
            rcases hterm with hterm | hterm
            · exact absurd hterm (by simp [hemp])
            · have hlen : page.length < pageLimit := of_decide_eq_true hterm
              simp [hemp, hlen]
  | succ i ih =>
    intro fuel iter skip acc reqs hflat hterm hfuel
    have h0 : isTerminal (oracle iter) = false := by
      have := hflat 0 (Nat.succ_pos i)
      rwa [Nat.add_zero] at this
    cases fuel with
    | zero => omega
    | succ f =>
      rcases ho : oracle iter with _ | _ | ⟨he, page⟩ <;> rw [ho] at h0 <;>
        simp only [isTerminal] at h0
      · cases h0
      · cases h0
      · cases he with
        | true => cases h0
        | false =>
          rw [Bool.or_eq_false_iff] at h0
          obtain ⟨hemp, hlen⟩ := h0
          have hlen' : ¬ page.length < pageLimit := by
            intro hc
            rw [decide_eq_true hc] at hlen
            cases hlen
          have hemp' : ¬ page.isEmpty = true := by simp [hemp]
          simp only [fetchLoop, ho, if_neg hemp', if_neg hlen']
          have hrec := ih f (iter + 1) (skip + page.length)
              (acc ++ page.filter fun tr => decide (t < getCtime tr))
              (reqs ++ [⟨t, skip, pageLimit, tokenHex 8 (randoms iter), times iter,
                sign_request api_key api_secret (tokenHex 8 (randoms iter)) (times iter)
                  [("startTime", toString t), ("skip", toString skip),
                   ("limit", toString pageLimit)] none⟩])
              (fun j hj => by
                rw [show iter + 1 + j = iter + (j + 1) by omega]
                exact hflat (j + 1) (by omega))
              (by rw [show iter + 1 + i = iter + (i + 1) by omega]; exact hterm)
              (by omega)
          rw [hrec]
          have hsplit : concatMap (fun j => pageFilter t (oracle (iter + j)))
              (List.range (i + 1 + 1)) =
              pageFilter t (oracle iter) ++
                concatMap (fun j => pageFilter t (oracle (iter + 1 + j)))
                  (List.range (i + 1)) := by
            rw [List.range_succ_eq_map]
            simp only [concatMap, Nat.add_zero]
            rw [concatMap_map]
            rw [concatMap_congr fun j _ => by
              rw [show iter + Nat.succ j = iter + 1 + j by omega]]
          rw [hsplit, ho]
          simp only [pageFilter, List.append_assoc]

/-- The maximum computed by `main` is the `ctime` of one of the trades. -/
theorem maxCtimeStrict_mem :
    ∀ {ts : List Trade} {v : Int}, maxCtimeStrict ts = some v → ∃ tr ∈ ts, tr.ctime = some v
  | [], v, h => by cases h
  | [tr], v, h => ⟨tr, List.mem_singleton_self tr, h⟩
  | tr :: tr2 :: rest, v, h => by
    simp only [maxCtimeStrict] at h
    rcases hc : tr.ctime with _ | c <;> rw [hc] at h
    · cases h
    · rcases hm : maxCtimeStrict (tr2 :: rest) with _ | m <;> rw [hm] at h
      · cases h
      · cases h with
        | refl =>
          rcases le_total m c with hle | hle
          · exact ⟨tr, List.mem_cons_self _ _, by rw [hc, max_eq_left hle]⟩
          · obtain ⟨tr', htr', hc'⟩ := maxCtimeStrict_mem hm
            exact ⟨tr', List.mem_cons_of_mem _ htr', by rw [hc', max_eq_right hle]⟩

/-! ### The claims -/

/-- Claim C2: for every checkpoint timestamp `t`, every record in the
list returned by `fetch_trades t` has creation timestamp strictly
greater than `t`; equivalently, `fetch_trades t` never returns a record
with creation timestamp less than or equal to `t`. -/
theorem claim_c2 (oracle : Nat → Response) (randoms : Nat → Nat → Nat)
    (times : Nat → String) (api_key api_secret : String) (t : Int) (fuel : Nat)
    (ts : List Trade) (rs : List Request)
    (h : fetch_trades oracle randoms times api_key api_secret t fuel = some (ts, rs)) :
    ∀ tr ∈ ts, t < getCtime tr :=
  fetchLoop_trades_gt oracle randoms times api_key api_secret t fuel 0 0 [] [] ts rs
    (by intro tr htr; cases htr) h

/-- Witness for C2 at a concrete one-page run: the page holds records
with timestamps 11 and 5, the checkpoint is 5, and every returned
record is strictly newer than 5. -/
theorem claim_c2_witness :
    ∃ ts rs,
      fetch_trades
        (fun _ => Response.payload false
          [⟨some 11, none, none, none, none, none⟩,
           ⟨some 5, none, none, none, none, none⟩])
        (fun _ j => j) (fun i => toString i) "key" "secret" 5 1 = some (ts, rs) ∧
      ∀ tr ∈ ts, 5 < getCtime tr := by
  refine ⟨_, _, rfl, ?_⟩
  exact claim_c2
    (fun _ => Response.payload false
      [⟨some 11, none, none, none, none, none⟩,
       ⟨some 5, none, none, none, none, none⟩])
    (fun _ j => j) (fun i => toString i) "key" "secret" 5 1 _ _ rfl

/-- Claim C4: for every checkpoint and every sequence of page
responses, `fetch_trades` terminates and returns the trades accumulated
so far (possibly empty) rather than raising, in each of these cases: a
page with fewer entries than the page limit, an empty page, a
remote-reported error in the parsed payload, a transport (HTTP-level)
failure, or a malformed (non-JSON) response body — `isTerminal` lists
exactly these cases, and the result is the filtered pages accumulated
up to the break. -/
theorem claim_c4 (oracle : Nat → Response) (randoms : Nat → Nat → Nat)
    (times : Nat → String) (api_key api_secret : String) (t : Int) (i fuel : Nat)
    (hbefore : ∀ j, j < i → isTerminal (oracle j) = false)
    (hterm : isTerminal (oracle i) = true)
    (hfuel : i < fuel) :
    (fetch_trades oracle randoms times api_key api_secret t fuel).map Prod.fst =
      some (concatMap (fun j => pageFilter t (oracle j)) (List.range (i + 1))) := by
  have h := fetchLoop_terminal oracle randoms times api_key api_secret t i fuel 0 0 [] []
    (fun j hj => by rw [Nat.zero_add]; exact hbefore j hj)
    (by rw [Nat.zero_add]; exact hterm) hfuel
  rw [fetch_trades, h, List.nil_append]
  simp only [Nat.zero_add]

/-- Witness for C4: a transport failure on the very first request
terminates the loop with an empty trade list. -/
theorem claim_c4_witness :
    isTerminal ((fun _ => Response.transportError) 0) = true ∧
    (fetch_trades (fun _ => Response.transportError) (fun _ j => j) (fun _ => "t0")
        "k" "s" 7 1).map Prod.fst =
      some (concatMap (fun j => pageFilter 7 ((fun _ => Response.transportError) j))
        (List.range 1)) :=
  ⟨rfl, claim_c4 (fun _ => Response.transportError) (fun _ j => j) (fun _ => "t0")
    "k" "s" 7 0 1 (fun j hj => absurd hj (by omega)) rfl (by omega)⟩

/-- Claim C7 as stated is false on the code: the nonce `fetch_trades`
sends is `secrets.token_hex(8)` — eight random bytes, sixteen hex
characters — not a value of at least 16 bytes / 32 hex characters.  In
this concrete run the single issued request carries a nonce of length
16, and 16 < 32. -/
theorem claim_c7_counterexample :
    (fetch_trades (fun _ => Response.transportError) (fun _ j => j) (fun _ => "t7")
        "k" "s" 0 1).map (fun p => p.2.map fun r => r.nonce.length) = some [16] ∧
    ¬ (32 ≤ 16) :=
  ⟨rfl, by omega⟩

/-- Claim C7, amended: every request issued by `fetch_trades` carries a
nonce of exactly sixteen hex characters (eight `secrets.token_hex`
bytes); the cryptographic quality of the byte source is outside the
model. -/
theorem claim_c7 (oracle : Nat → Response) (randoms : Nat → Nat → Nat)
    (times : Nat → String) (api_key api_secret : String) (t : Int) (fuel : Nat)
    (ts : List Trade) (rs : List Request)
    (h : fetch_trades oracle randoms times api_key api_secret t fuel = some (ts, rs)) :
    ∀ r ∈ rs, r.nonce.length = 16 :=
  fetchLoop_nonce_length oracle randoms times api_key api_secret t fuel 0 0 [] [] ts rs
    (by intro r hr; cases hr) h

/-- Witness for the amended C7 at a concrete run with one request. -/
theorem claim_c7_witness :
    ∃ ts rs,
      fetch_trades (fun _ => Response.payload false []) (fun _ j => j) (fun _ => "t8")
        "kk" "ss" 3 1 = some (ts, rs) ∧
      ∀ r ∈ rs, r.nonce.length = 16 := by
  refine ⟨_, _, rfl, ?_⟩
  exact claim_c7 (fun _ => Response.payload false []) (fun _ j => j) (fun _ => "t8")
    "kk" "ss" 3 1 _ _ rfl

/-- Claim C1: for every nonce, timestamp, query-parameter mapping
(modelled as a key-value list with distinct keys) and optional body
(represented by its parsed JSON value — "valid JSON when present"),
`sign_request` returns the hex encoding of SHA-256 applied to the
concatenation of (the hex-encoded SHA-256 digest of nonce + timestamp +
key id + the query parameters sorted by key in ascending byte order and
concatenated as key-then-value pairs with no separators + the body
re-serialized as compact JSON) followed by the secret key: it agrees
with the specification formula `signSpec`. -/
theorem claim_c1 (api_key api_secret nonce timestamp : String)
    (query_params : List (String × String)) (body : Option Json)
    (h : (query_params.map Prod.fst).Nodup) :
    sign_request api_key api_secret nonce timestamp query_params body =
      signSpec api_key api_secret nonce timestamp query_params body := by
  simp only [sign_request, signSpec, insertionSort_byteKey_eq_pair query_params h]

/-- Witness for C1 at the script's own query-parameter shape and a
small JSON body. -/
theorem claim_c1_witness :
    ((([("startTime", "0"), ("skip", "0"), ("limit", "100")] :
        List (String × String))).map Prod.fst).Nodup ∧
    sign_request "key" "sec" "nonce" "171" [("startTime", "0"), ("skip", "0"), ("limit", "100")]
        (some (Json.obj [("a", Json.num 1)])) =
      signSpec "key" "sec" "nonce" "171" [("startTime", "0"), ("skip", "0"), ("limit", "100")]
        (some (Json.obj [("a", Json.num 1)])) :=
  ⟨by decide, claim_c1 _ _ _ _ _ _ (by decide)⟩

/-- Claim C5: for every nonce, timestamp and body, and any two
query-parameter lists holding the same key-value pairs in different
orders, `sign_request` produces the same signature (sorting
canonicalizes insertion order). -/
theorem claim_c5 (api_key api_secret nonce timestamp : String) (body : Option Json)
    (p q : List (String × String)) (h : p.Perm q) :
    sign_request api_key api_secret nonce timestamp p body =
      sign_request api_key api_secret nonce timestamp q body := by
  have hsort : List.insertionSort pairLe p = List.insertionSort pairLe q :=
    List.eq_of_perm_of_sorted ((List.perm_insertionSort pairLe p).trans
      (h.trans (List.perm_insertionSort pairLe q).symm))
      (List.sorted_insertionSort pairLe p) (List.sorted_insertionSort pairLe q)
  simp only [sign_request, hsort]

/-- Witness for C5: the two orders of a two-entry mapping sign
identically. -/
theorem claim_c5_witness :
    (([("b", "1"), ("a", "2")] : List (String × String)).Perm [("a", "2"), ("b", "1")]) ∧
    sign_request "k" "s" "n" "171" [("b", "1"), ("a", "2")] none =
      sign_request "k" "s" "n" "171" [("a", "2"), ("b", "1")] none :=
  ⟨List.Perm.swap ("a", "2") ("b", "1") [],
   claim_c5 _ _ _ _ _ _ _ (List.Perm.swap ("a", "2") ("b", "1") [])⟩

/-- Claim C6 as stated is false on the code at one boundary input: with
no state file and a config whose `start_time` is the empty string —
present but malformed (no parser accepts it) — `load_state` returns 0
instead of raising: the script's truthiness test `if start_time:`
treats `""` as absent. -/
theorem claim_c6_counterexample :
    load_state (fun _ => none) none
      (some { api_key := none, secret_key := none, start_time := some "" }) = .ok 0 ∧
    (fun _ => (none : Option Int)) ("".replace "Z" "+00:00") = none :=
  ⟨rfl, rfl⟩

/-- Claim C6, amended: `load_state` returns the persisted checkpoint
when the state file is present; otherwise, if the configuration
contains a non-empty `start_time` string, it returns that instant
converted to milliseconds (via the ISO-8601 parser, after replacing
`Z` with `+00:00`), raising an error if and only if the parser rejects
it; an absent or empty `start_time`, or no config file, yields 0. -/
theorem claim_c6 (fromiso : String → Option Int) :
    (∀ (d : StateData) (config : Option ConfigData),
        load_state fromiso (some d) config = .ok (d.last_time.getD 0)) ∧
    (∀ (cfg : ConfigData) (s : String) (ms : Int), cfg.start_time = some s → s ≠ "" →
        fromiso (s.replace "Z" "+00:00") = some ms →
        load_state fromiso none (some cfg) = .ok ms) ∧
    (∀ (cfg : ConfigData) (s : String), cfg.start_time = some s → s ≠ "" →
        fromiso (s.replace "Z" "+00:00") = none →
        load_state fromiso none (some cfg) = .error "Invalid start_time format in config") ∧
    (∀ cfg : ConfigData, cfg.start_time = none ∨ cfg.start_time = some "" →
        load_state fromiso none (some cfg) = .ok 0) ∧
    load_state fromiso none none = .ok 0 := by
  refine ⟨fun d config => rfl, ?_, ?_, ?_, rfl⟩
  · intro cfg s ms hs hne hp
    simp [load_state, hs, hne, hp]
  · intro cfg s hs hne hp
    simp [load_state, hs, hne, hp]
  · rintro cfg (hs | hs) <;> simp [load_state, hs]

/-- Witness for the amended C6: a parsable configured instant is
returned in milliseconds (the parser argument is constant, standing for
a parser that accepts this instant). -/
theorem claim_c6_witness :
    load_state (fun _ => some 1704164645000) none
      (some { api_key := none, secret_key := none,
              start_time := some "2024-01-02T03:04:05Z" }) = .ok 1704164645000 :=
  (claim_c6 (fun _ => some 1704164645000)).2.1
    { api_key := none, secret_key := none, start_time := some "2024-01-02T03:04:05Z" }
    "2024-01-02T03:04:05Z" 1704164645000 rfl (by decide) rfl

/-- Claim C10: if the state file exists but has no `last_time` entry,
`load_state` returns 0 whatever the config holds — the config-derived
start is consulted only when the state file is absent. -/
theorem claim_c10 (fromiso : String → Option Int) (config : Option ConfigData) :
    load_state fromiso (some { last_time := none }) config = .ok 0 := rfl

/-- Claim C9: `transform_trades` is total (a Lean function), returns
exactly one output row per input record, orders the rows ascending by
the records' creation timestamps regardless of input order (the output
is the image of a sorted permutation of the input), and maps each
missing upstream field to a blank output field. -/
theorem claim_c9 (trades : List Trade) :
    (transform_trades trades).length = trades.length ∧
    (∃ sorted_trades : List Trade, sorted_trades.Perm trades ∧
        sorted_trades.Sorted tradeLe ∧
        transform_trades trades = sorted_trades.map tradeRow) ∧
    ∀ tr : Trade,
      (tr.symbol = none → (tradeRow tr).symbol = "") ∧
      (tr.side = none → (tradeRow tr).buySell = "") ∧
      (tr.qty = none → (tradeRow tr).quantity = "") ∧
      (tr.price = none → (tradeRow tr).price = "") ∧
      (tr.fee = none → (tradeRow tr).commission = "") := by
  refine ⟨?_, ⟨List.insertionSort tradeLe trades, List.perm_insertionSort _ _,
    List.sorted_insertionSort _ _, rfl⟩, ?_⟩
  · simp only [transform_trades, List.length_map]
    exact (List.perm_insertionSort tradeLe trades).length_eq
  · intro tr
    refine ⟨?_, ?_, ?_, ?_, ?_⟩ <;> intro h <;> simp [tradeRow, strUpper, h]

/-- Witness for C9: a singleton list yields one row, and a record with
no symbol yields a blank `Symbol` field. -/
theorem claim_c9_witness :
    (transform_trades [⟨some 3, none, none, none, none, none⟩]).length =
      ([⟨some 3, none, none, none, none, none⟩] : List Trade).length ∧
    (tradeRow ⟨some 3, none, some "buy", none, none, none⟩).symbol = "" :=
  ⟨(claim_c9 [⟨some 3, none, none, none, none, none⟩]).1,
   ((claim_c9 []).2.2 ⟨some 3, none, some "buy", none, none, none⟩).1 rfl⟩

/-- Claim C8: a run whose fetch returns no trades (none strictly newer
than the loaded checkpoint) ends as `noNew`: no rows are handed to the
writer and the state file is exactly the one the run started with. -/
theorem claim_c8 (fromiso : String → Option Int) (stateFile : Option StateData)
    (config : Option ConfigData) (oracle : Nat → Response) (randoms : Nat → Nat → Nat)
    (times : Nat → String) (api_key api_secret : String) (fuel : Nat) (l : Int)
    (rs : List Request)
    (hload : load_state fromiso stateFile config = .ok l)
    (hfetch : fetch_trades oracle randoms times api_key api_secret l fuel = some ([], rs)) :
    mainRun fromiso stateFile config oracle randoms times api_key api_secret fuel =
      some ⟨.noNew, stateFile⟩ := by
  simp [mainRun, hload, hfetch]

/-- Witness for C8: the remote's only page holds no trade newer than
checkpoint 50 (it is empty), so the run leaves the state file at 50. -/
theorem claim_c8_witness :
    ∃ rs, fetch_trades (fun _ => Response.payload false []) (fun _ j => j)
        (fun _ => "tm8") "k" "s" 50 1 = some ([], rs) ∧
      mainRun (fun _ => none) (some ⟨some 50⟩) none (fun _ => Response.payload false [])
          (fun _ j => j) (fun _ => "tm8") "k" "s" 1 =
        some ⟨.noNew, some ⟨some 50⟩⟩ := by
  refine ⟨_, rfl, ?_⟩
  exact claim_c8 (fun _ => none) (some ⟨some 50⟩) none (fun _ => Response.payload false [])
    (fun _ j => j) (fun _ => "tm8") "k" "s" 1 50 _ rfl rfl

/-- Claim C3: in a run that completes with an export, the checkpoint
value saved at the end (`save_state v`) is greater than or equal to the
value loaded at the start (in fact strictly greater), and equals the
maximum creation timestamp among the trades exported in that run. -/
theorem claim_c3 (fromiso : String → Option Int) (stateFile : Option StateData)
    (config : Option ConfigData) (oracle : Nat → Response) (randoms : Nat → Nat → Nat)
    (times : Nat → String) (api_key api_secret : String) (fuel : Nat) (l : Int)
    (rows : List Row) (v : Int) (after : Option StateData)
    (hload : load_state fromiso stateFile config = .ok l)
    (hrun : mainRun fromiso stateFile config oracle randoms times api_key api_secret fuel =
      some ⟨.exported rows v, after⟩) :
    l ≤ v ∧ after = some (save_state v) ∧
      ∃ ts rs, fetch_trades oracle randoms times api_key api_secret l fuel = some (ts, rs) ∧
        maxCtimeStrict ts = some v ∧ rows = transform_trades ts := by
  simp only [mainRun, hload] at hrun
  rcases hfetch : fetch_trades oracle randoms times api_key api_secret l fuel with
    _ | ⟨ts, rs⟩ <;> simp only [hfetch] at hrun
  · cases hrun
  · by_cases hemp : ts.isEmpty
    · rw [if_pos hemp] at hrun
      cases hrun
    · rw [if_neg hemp] at hrun
      rcases hmax : maxCtimeStrict ts with _ | m <;>
        simp only [hmax, Option.some.injEq, RunResult.mk.injEq, reduceCtorEq,
          false_and, RunOutcome.exported.injEq] at hrun
      obtain ⟨⟨hrows, hv⟩, hafter⟩ := hrun
      subst hv
      obtain ⟨tr, htr, hctr⟩ := maxCtimeStrict_mem hmax
      have hgt := fetchLoop_trades_gt oracle randoms times api_key api_secret l fuel 0 0
        [] [] ts rs (by intro x hx; cases hx) hfetch tr htr
      have hg : getCtime tr = m := by rw [getCtime, hctr]; rfl
      exact ⟨le_of_lt (hg ▸ hgt), hafter.symm,
        ts, rs, rfl, hmax, hrows.symm⟩

/-- Witness for C3: checkpoint 50 loaded, one trade with timestamp 100
fetched and exported, checkpoint 100 saved. -/
theorem claim_c3_witness :
    load_state (fun _ => none) (some ⟨some 50⟩) none = .ok 50 ∧
    ∃ rows v after,
      mainRun (fun _ => none) (some ⟨some 50⟩) none
          (fun _ => Response.payload false [⟨some 100, none, none, none, none, none⟩])
          (fun _ j => j) (fun _ => "tm3") "k" "s" 1 = some ⟨.exported rows v, after⟩ ∧
      ((50 : Int) ≤ v ∧ after = some (save_state v) ∧
        ∃ ts rs,
          fetch_trades (fun _ => Response.payload false
              [⟨some 100, none, none, none, none, none⟩])
            (fun _ j => j) (fun _ => "tm3") "k" "s" 50 1 = some (ts, rs) ∧
          maxCtimeStrict ts = some v ∧ rows = transform_trades ts) := by
  refine ⟨rfl, _, _, _, rfl, ?_⟩
  exact claim_c3 (fun _ => none) (some ⟨some 50⟩) none
    (fun _ => Response.payload false [⟨some 100, none, none, none, none, none⟩])
    (fun _ j => j) (fun _ => "tm3") "k" "s" 1 50 _ _ _ rfl rfl

set_option maxRecDepth 10000 in
/-- The SHA-256 implementation matches the FIPS 180-4 test vector for
the message `"abc"`. -/
theorem sha256Hex_abc :
    sha256Hex (utf8Encode "abc") =
      "ba7816bf8f01cfea414140de5dae2223b00361a396177a9cb410ff61f20015ad" := by rfl

set_option maxRecDepth 10000 in
/-- The SHA-256 implementation matches the test vector for the empty
message. -/
theorem sha256Hex_empty :
    sha256Hex (utf8Encode "") =
      "e3b0c44298fc1c149afbf4c8996fb92427ae41e4649b934ca495991b7852b855" := by rfl

end BitunixSync
